import Mathlib

/-!
Verification of the budget-constrained replacement core of the
Interiordesign backend (FastAPI app in `backend/`).

The repository ships `backend/main.py` (the request orchestrator),
`backend/config.py` (the `BUDGET_ESTIMATES` table) and supporting
storage/logging modules.  The modules implementing the core components
(`services/replacement_engine.py`, `services/vendor_links.py`,
`services/budget.py`) are imported by `main.py` but their sources are not
available, so those components are modelled here from the design
specification; the `detect_furniture` endpoint's vendor-link loop and the
budget table are embedded directly from the available sources.

Currency amounts and prices are natural numbers (the spec requires
non-negative currency units and the HTTP form field is an integer).
-/

/-- A recognized object instance, as produced by the external detector
(`yolo_detector.detect_furniture`).  Only the category label is consulted
by the core; confidence and bounding box are carried as rational payload. -/
structure Detection where
  category : String
  confidence : ℚ := 0
  bounding_box : ℚ × ℚ × ℚ × ℚ := (0, 0, 0, 0)
deriving DecidableEq, Repr

/-- A purchasable replacement option for a category, supplied by the
external catalog collaborator. -/
structure CandidateItem where
  category : String
  name : String
  price : ℕ
  priority : ℕ := 0
deriving DecidableEq, Repr

/-- A committed replacement: the chosen item for one category. -/
structure Suggestion where
  category : String
  name : String
  price : ℕ
deriving DecidableEq, Repr

/-- The external candidate catalog: per category it either supplies a
(possibly empty) candidate list or fails with `CatalogUnavailableError`,
modelled as the `Except` error case. -/
def Catalog : Type := String → Except Unit (List CandidateItem)

/-- Whether the catalog collaborator can supply candidates for a category
(i.e. does not raise `CatalogUnavailableError`). -/
def catalogOk (catalog : Catalog) (c : String) : Bool :=
  match catalog c with
  | .ok _ => true
  | .error _ => false

/-- Deduplication keeping the first occurrence of each element: `seen`
accumulates the categories already emitted. -/
def dedupAux (seen : List String) : List String → List String
  | [] => []
  | c :: cs => if c ∈ seen then dedupAux seen cs else c :: dedupAux (c :: seen) cs

/-- Modelled from the spec: step 1 of `ReplacementEngine.suggest_replacements`
(`services/replacement_engine.py`, absent from the sources) — deduplicate
detections by category, preserving first-seen order. -/
def dedupCategories (detections : List Detection) : List String :=
  dedupAux [] (detections.map (·.category))

/-- The cheapest member of a candidate list (first one in case of price
ties), `none` on the empty list. -/
def cheapestItem : List CandidateItem → Option CandidateItem
  | [] => none
  | i :: is =>
    match cheapestItem is with
    | none => some i
    | some j => if i.price ≤ j.price then some i else some j

/-- The cheapest price occurring in a candidate list (0 for the empty
list, which never reaches the allocation pass). -/
def cheapestPrice (items : List CandidateItem) : ℕ :=
  match cheapestItem items with
  | none => 0
  | some i => i.price

/-- One schedule entry: a distinct detected category paired with its
candidate catalog. -/
def SchedEntry : Type := String × List CandidateItem

/-- Sort key for allocation ordering: the category's cheapest candidate
price. -/
def schedKey (e : SchedEntry) : ℕ := cheapestPrice e.2

/-- Modelled from the spec: step 2 of `suggest_replacements` — request the
candidate catalog for each distinct category; a category whose catalog
call fails (`CatalogUnavailableError`) or returns no candidates is
skipped (it can never be serviced and has no cheapest price). -/
def catEntries (catalog : Catalog) : List String → List SchedEntry
  | [] => []
  | c :: cs =>
    match catalog c with
    | .error _ => catEntries catalog cs
    | .ok items =>
      if items.isEmpty then catEntries catalog cs
      else (c, items) :: catEntries catalog cs

instance : IsTotal SchedEntry (fun a b => schedKey a ≤ schedKey b) :=
  ⟨fun a b => Nat.le_total (schedKey a) (schedKey b)⟩

instance : IsTrans SchedEntry (fun a b => schedKey a ≤ schedKey b) :=
  ⟨fun _ _ _ => Nat.le_trans⟩

/-- Modelled from the spec: step 4 of `suggest_replacements` — order the
categories by ascending cheapest candidate price; insertion sort is
stable, so categories with equal cheapest price keep first-seen order. -/
def orderByCheapest (l : List SchedEntry) : List SchedEntry :=
  l.insertionSort (fun a b => schedKey a ≤ schedKey b)

/-- Modelled from the spec: step 3 of `suggest_replacements` — within a
category's candidate set, the cheapest item whose price is at most the
remaining budget, or `none` when no candidate qualifies. -/
def pickQualifying (remaining : ℕ) (items : List CandidateItem) : Option CandidateItem :=
  cheapestItem (items.filter (fun i => i.price ≤ remaining))

/-- Modelled from the spec: steps 3, 5 and 6 of `suggest_replacements` —
the greedy allocation pass over the ordered schedule: commit the
qualifying item, decrement the remaining budget, skip categories with no
qualifying item, and terminate early when the remaining budget is 0. -/
def allocate : List SchedEntry → ℕ → List Suggestion × ℕ
  | [], remaining => ([], remaining)
  | (c, items) :: rest, remaining =>
    if remaining = 0 then ([], remaining)
    else
      match pickQualifying remaining items with
      | none => allocate rest remaining
      | some i =>
        let next := allocate rest (remaining - i.price)
        (⟨c, i.name, i.price⟩ :: next.1, next.2)

/-- Modelled from the spec: `ReplacementEngine.suggest_replacements`
(`services/replacement_engine.py`, absent from the sources) — deduplicate
detections by category, fetch candidate catalogs, order categories by
ascending cheapest price with first-seen tie-break, then greedily commit
the cheapest qualifying item per category within the budget. -/
def suggest_replacements (catalog : Catalog) (detections : List Detection)
    (budget : ℕ) : List Suggestion × ℕ :=
  allocate (orderByCheapest (catEntries catalog (dedupCategories detections))) budget

/-- Total price of a suggestion list. -/
def sumPrices (l : List Suggestion) : ℕ := (l.map (·.price)).sum

/-! ## BudgetEstimator (`services/budget.py`, table from `backend/config.py`) -/

/-- The style-to-cost table, embedded from `backend/config.py`
(`BUDGET_ESTIMATES`). -/
def BUDGET_ESTIMATES : List (String × ℕ) :=
  [("Minimalist", 150000), ("Modern", 250000), ("Vintage", 200000), ("Professional", 300000)]

/-- Association-list lookup by string key. -/
def assocLookup {β : Type} : List (String × β) → String → Option β
  | [], _ => none
  | p :: ps, k => if p.1 = k then some p.2 else assocLookup ps k

/-- The error raised on an unrecognized style label. -/
inductive UnknownStyleError where
  | unknownStyle (style : String) : UnknownStyleError
deriving DecidableEq, Repr

/-- Modelled from the spec: `estimate_cost` (`services/budget.py`, absent
from the sources) — a pure lookup in the `BUDGET_ESTIMATES` table of
`backend/config.py`; an unrecognized style fails with
`UnknownStyleError`, with no implicit default. -/
def estimate_cost (style : String) : Except UnknownStyleError ℕ :=
  match assocLookup BUDGET_ESTIMATES style with
  | some cost => .ok cost
  | none => .error (.unknownStyle style)

/-! ## VendorLinkCache (`services/vendor_links.py`) -/

/-- A vendor purchase-link record. -/
structure LinkRecord where
  title : String
  url : String
deriving DecidableEq, Repr

/-- Cache status of a vendor lookup result. -/
inductive CacheStatus where
  | hit | miss | error
deriving DecidableEq, Repr

/-- The value returned by `get_vendor_links`. -/
structure VendorLookupResult where
  results : List LinkRecord
  cache_status : CacheStatus
  latency_ms : ℕ
deriving DecidableEq, Repr

/-- One cache entry, owned by the VendorLinkCache. -/
structure CacheEntry where
  value : List LinkRecord
  fetched_at : ℕ
  ttl : ℕ
deriving DecidableEq, Repr

/-- The in-memory cache store: category-keyed association list. -/
def CacheState : Type := List (String × CacheEntry)

/-- An entry is fresh (non-stale) at time `now` while the ttl has not yet
elapsed since it was fetched. -/
def entryFresh (now : ℕ) (e : CacheEntry) : Bool := now < e.fetched_at + e.ttl

/-- Store a new entry for a key, replacing any previous entry. -/
def storeEntry (st : CacheState) (c : String) (e : CacheEntry) : CacheState :=
  (c, e) :: st.filter (fun p => p.1 ≠ c)

/-- The external vendor source: per category either an ordered sequence of
link records or a lookup failure (timeout, transport error, invalid
response), modelled as the `Except` error case. -/
def VendorSource : Type := String → Except Unit (List LinkRecord)

/-- Modelled from the spec: `VendorLinkCache.get_vendor_links`
(`services/vendor_links.py`, absent from the sources).  `cfgTtl` is the
configured ttl, `measured` the wall-clock latency a fresh lookup would
take, `now` the current time; returns the result together with the cache
state after the call.  A populated non-stale entry is returned as a hit
with zero latency; otherwise the external source is consulted: success is
stored with the configured ttl and returned as a miss, failure is never
cached and is returned as a degraded `error` result with empty links. -/
def get_vendor_links (cfgTtl : ℕ) (source : VendorSource) (measured : ℕ)
    (now : ℕ) (st : CacheState) (category : String) :
    VendorLookupResult × CacheState :=
  match assocLookup st category with
  | some e =>
    if entryFresh now e then
      ({ results := e.value, cache_status := .hit, latency_ms := 0 }, st)
    else
      match source category with
      | .ok rs =>
        ({ results := rs, cache_status := .miss, latency_ms := measured },
          storeEntry st category ⟨rs, now, cfgTtl⟩)
      | .error _ =>
        ({ results := [], cache_status := .error, latency_ms := measured }, st)
  | none =>
    match source category with
    | .ok rs =>
      ({ results := rs, cache_status := .miss, latency_ms := measured },
        storeEntry st category ⟨rs, now, cfgTtl⟩)
    | .error _ =>
      ({ results := [], cache_status := .error, latency_ms := measured }, st)

/-! ## The `detect_furniture` endpoint loop (`backend/main.py`, lines 231-241) -/

/-- A field value inside one `online_suggestions` entry (the endpoint
builds string-keyed dictionaries). -/
inductive EntryField where
  | strF : String → EntryField
  | natF : ℕ → EntryField
  | linksF : List LinkRecord → EntryField
deriving DecidableEq, Repr

/-- One `online_suggestions` entry: a string-keyed record. -/
def Entry : Type := List (String × EntryField)

/-- The fallback entry the endpoint stores when `get_vendor_links` raises,
embedded from `backend/main.py` line 241: note the key is `cache`, not
`cache_status`. -/
def errorEntry : Entry :=
  [("results", .linksF []), ("cache", .strF "error"), ("latency_ms", .natF 0)]

/-- The per-category vendor call as seen by the endpoint: it either
returns an entry or raises. -/
def VendorCall : Type := String → Except Unit Entry

/-- The entry the endpoint stores for a category: the call's result when
it returns normally, the `errorEntry` fallback when it raises
(`backend/main.py` lines 236-241). -/
def onlineValue (getv : VendorCall) (c : String) : Entry :=
  match getv c with
  | .ok v => v
  | .error _ => errorEntry

/-- The endpoint loop of `backend/main.py` lines 232-241: iterate over the
raw detections, and for each category not yet present in the accumulated
mapping, call `get_vendor_links` and store its entry (or the fallback).
Returns the mapping in insertion order together with the log of
categories on which the vendor call was actually invoked. -/
def onlineLoop (getv : VendorCall) :
    List Detection → List (String × Entry) → List (String × Entry) × List String
  | [], acc => (acc, [])
  | d :: ds, acc =>
    if d.category ∈ acc.map Prod.fst then onlineLoop getv ds acc
    else
      let rest := onlineLoop getv ds (acc ++ [(d.category, onlineValue getv d.category)])
      (rest.1, d.category :: rest.2)

/-- The `online_suggestions` mapping built by the `detect_furniture`
endpoint, with the log of vendor-call invocations. -/
def online_suggestions (getv : VendorCall) (detections : List Detection) :
    List (String × Entry) × List String :=
  onlineLoop getv detections []

/-! ## Lemmas about the replacement engine -/

theorem cheapestItem_cons (i : CandidateItem) (is : List CandidateItem) :
    ∃ j, cheapestItem (i :: is) = some j := by
  rw [cheapestItem]
  cases cheapestItem is with
  | none => exact ⟨i, rfl⟩
  | some k =>
    by_cases hp : i.price ≤ k.price
    · exact ⟨i, by simp [hp]⟩
    · exact ⟨k, by simp [hp]⟩

theorem cheapestItem_mem {l : List CandidateItem} {i : CandidateItem}
    (h : cheapestItem l = some i) : i ∈ l := by
  induction l with
  | nil => simp [cheapestItem] at h
  | cons j js ih =>
    rw [cheapestItem] at h
    cases hj : cheapestItem js with
    | none => rw [hj] at h; simp at h; simp [h]
    | some k =>
      rw [hj] at h
      by_cases hp : j.price ≤ k.price
      · simp [hp] at h; simp [h]
      · simp [hp] at h; subst h; exact List.mem_cons_of_mem _ (ih hj)

theorem cheapestItem_le {l : List CandidateItem} :
    ∀ {i : CandidateItem}, cheapestItem l = some i → ∀ b ∈ l, i.price ≤ b.price := by
  induction l with
  | nil => intro i h; simp [cheapestItem] at h
  | cons j js ih =>
    intro i h
    rw [cheapestItem] at h
    cases hj : cheapestItem js with
    | none =>
      rw [hj] at h
      simp at h
      subst h
      cases js with
      | nil => intro b hb; rcases List.mem_cons.1 hb with rfl | hb'
               · exact Nat.le_refl _
               · cases hb'
      | cons a as =>
        obtain ⟨m, hm⟩ := cheapestItem_cons a as
        rw [hm] at hj; cases hj
    | some k =>
      rw [hj] at h
      intro b hb
      by_cases hp : j.price ≤ k.price
      · simp [hp] at h
        subst h
        rcases List.mem_cons.1 hb with rfl | hb'
        · exact Nat.le_refl _
        · exact Nat.le_trans hp (ih hj b hb')
      · simp [hp] at h
        subst h
        rcases List.mem_cons.1 hb with rfl | hb'
        · exact Nat.le_of_lt (Nat.lt_of_not_le hp)
        · exact ih hj b hb'

theorem pickQualifying_spec {remaining : ℕ} {items : List CandidateItem}
    {i : CandidateItem} (h : pickQualifying remaining items = some i) :
    i ∈ items ∧ i.price ≤ remaining := by
  have hm := cheapestItem_mem h
  rw [List.mem_filter] at hm
  exact ⟨hm.1, by simpa using hm.2⟩

theorem pickQualifying_price {remaining : ℕ} {items : List CandidateItem}
    {i : CandidateItem} (h : pickQualifying remaining items = some i) :
    i.price = cheapestPrice items := by
  obtain ⟨hi, hle⟩ := pickQualifying_spec h
  cases items with
  | nil => cases hi
  | cons a as =>
    obtain ⟨m, hm⟩ := cheapestItem_cons a as
    have hmi : m.price ≤ i.price := cheapestItem_le hm i hi
    have hmem : m ∈ (a :: as).filter (fun x => x.price ≤ remaining) := by
      rw [List.mem_filter]
      exact ⟨cheapestItem_mem hm, by simpa using Nat.le_trans hmi hle⟩
    have him : i.price ≤ m.price := cheapestItem_le h m hmem
    rw [cheapestPrice, hm]
    exact Nat.le_antisymm him hmi

theorem allocate_sum (l : List SchedEntry) (b : ℕ) :
    sumPrices (allocate l b).1 + (allocate l b).2 = b := by
  induction l generalizing b with
  | nil => simp [allocate, sumPrices]
  | cons e rest ih =>
    obtain ⟨c, items⟩ := e
    by_cases hb : b = 0
    · subst hb; simp [allocate, sumPrices]
    · cases hp : pickQualifying b items with
      | none => simpa [allocate, hb, hp] using ih b
      | some i =>
        have hle := (pickQualifying_spec hp).2
        have := ih (b - i.price)
        simp only [allocate, if_neg hb, hp, sumPrices, List.map_cons, List.sum_cons] at *
        omega

theorem mem_of_mem_dedupAux {x : String} :
    ∀ {l seen : List String}, x ∈ dedupAux seen l → x ∈ l ∧ x ∉ seen := by
  intro l
  induction l with
  | nil => intro seen h; simp [dedupAux] at h
  | cons c cs ih =>
    intro seen h
    rw [dedupAux] at h
    by_cases hc : c ∈ seen
    · rw [if_pos hc] at h
      obtain ⟨h1, h2⟩ := ih h
      exact ⟨List.mem_cons_of_mem _ h1, h2⟩
    · rw [if_neg hc] at h
      rcases List.mem_cons.1 h with rfl | h'
      · exact ⟨List.mem_cons_self _ _, hc⟩
      · obtain ⟨h1, h2⟩ := ih h'
        exact ⟨List.mem_cons_of_mem _ h1, fun hs => h2 (List.mem_cons_of_mem _ hs)⟩

theorem nodup_dedupAux : ∀ (l seen : List String), (dedupAux seen l).Nodup := by
  intro l
  induction l with
  | nil => intro seen; simp [dedupAux]
  | cons c cs ih =>
    intro seen
    rw [dedupAux]
    by_cases hc : c ∈ seen
    · rw [if_pos hc]; exact ih seen
    · rw [if_neg hc]
      refine List.nodup_cons.2 ⟨fun hmem => ?_, ih (c :: seen)⟩
      exact (mem_of_mem_dedupAux hmem).2 (List.mem_cons_self _ _)

theorem nodup_dedupCategories (detections : List Detection) :
    (dedupCategories detections).Nodup :=
  nodup_dedupAux _ []

theorem catEntries_fst_sublist (catalog : Catalog) :
    ∀ cs : List String, List.Sublist ((catEntries catalog cs).map Prod.fst) cs := by
  intro cs
  induction cs with
  | nil => simp [catEntries]
  | cons c cs ih =>
    rw [catEntries]
    cases catalog c with
    | error e => exact ih.cons c
    | ok items =>
      by_cases he : items.isEmpty
      · simp only [he, if_true]; exact ih.cons c
      · simp only [he, if_false]; exact List.Sublist.cons₂ c ih

theorem allocate_cat_sublist :
    ∀ (l : List SchedEntry) (b : ℕ),
      List.Sublist ((allocate l b).1.map (·.category)) (l.map Prod.fst) := by
  intro l
  induction l with
  | nil => intro b; simp [allocate]
  | cons e rest ih =>
    intro b
    obtain ⟨c, items⟩ := e
    by_cases hb : b = 0
    · simp [allocate, hb]
    · cases hp : pickQualifying b items with
      | none =>
        simp only [allocate, if_neg hb, hp, List.map_cons]
        exact (ih b).cons c
      | some i =>
        simp only [allocate, if_neg hb, hp, List.map_cons]
        exact List.Sublist.cons₂ c (ih (b - i.price))

theorem allocate_price_sublist :
    ∀ (l : List SchedEntry) (b : ℕ),
      List.Sublist ((allocate l b).1.map (·.price)) (l.map schedKey) := by
  intro l
  induction l with
  | nil => intro b; simp [allocate]
  | cons e rest ih =>
    intro b
    obtain ⟨c, items⟩ := e
    by_cases hb : b = 0
    · simp [allocate, hb]
    · cases hp : pickQualifying b items with
      | none =>
        simp only [allocate, if_neg hb, hp, List.map_cons]
        exact (ih b).cons _
      | some i =>
        simp only [allocate, if_neg hb, hp, List.map_cons]
        have hkey : i.price = schedKey (c, items) := pickQualifying_price hp
        rw [hkey]
        exact List.Sublist.cons₂ _ (ih _)

theorem orderByCheapest_perm (l : List SchedEntry) : List.Perm (orderByCheapest l) l :=
  List.perm_insertionSort _ l

theorem orderByCheapest_sorted (l : List SchedEntry) :
    List.Pairwise (fun a b => schedKey a ≤ schedKey b) (orderByCheapest l) :=
  List.sorted_insertionSort _ l

/-! ## Claim theorems for the replacement engine -/

/-- C1: for every list of detections and every valid budget, the pair
(suggestions, remaining budget) returned by `suggest_replacements`
satisfies: the sum of the committed suggestion prices is at most the
input budget, the remaining budget equals the budget minus that sum, and
the remaining budget is non-negative. -/
theorem replacement_budget_invariant (catalog : Catalog)
    (detections : List Detection) (budget : ℕ) :
    sumPrices (suggest_replacements catalog detections budget).1 ≤ budget ∧
    ((suggest_replacements catalog detections budget).2 : ℤ) =
      (budget : ℤ) - (sumPrices (suggest_replacements catalog detections budget).1 : ℤ) ∧
    (0 : ℤ) ≤ ((suggest_replacements catalog detections budget).2 : ℤ) := by
  have h := allocate_sum (orderByCheapest (catEntries catalog (dedupCategories detections))) budget
  simp only [suggest_replacements]
  omega

/-- C2: no two suggestions in one `suggest_replacements` result share the
same category (detections are deduplicated by category before
allocation). -/
theorem replacement_no_duplicate_categories (catalog : Catalog)
    (detections : List Detection) (budget : ℕ) :
    ((suggest_replacements catalog detections budget).1.map (·.category)).Nodup := by
  have h0 : (dedupCategories detections).Nodup := nodup_dedupCategories detections
  have h1 : ((catEntries catalog (dedupCategories detections)).map Prod.fst).Nodup :=
    List.Nodup.sublist (catEntries_fst_sublist catalog _) h0
  have hperm :
      List.Perm ((orderByCheapest (catEntries catalog (dedupCategories detections))).map Prod.fst)
        ((catEntries catalog (dedupCategories detections)).map Prod.fst) :=
    (orderByCheapest_perm _).map Prod.fst
  have h2 := (hperm.nodup_iff).2 h1
  exact List.Nodup.sublist (allocate_cat_sublist _ budget) h2

/-- Catalog of the worked example in the spec: sofa has candidates at 150
and 90, lamp has one at 30, all other categories are unavailable. -/
def exampleCatalog : Catalog := fun c =>
  if c = "sofa" then .ok [⟨"sofa", "sofa_a", 150, 0⟩, ⟨"sofa", "sofa_b", 90, 0⟩]
  else if c = "lamp" then .ok [⟨"lamp", "lamp_a", 30, 0⟩]
  else .error ()

/-- Detections of the worked example in the spec: sofa, sofa, lamp. -/
def exampleDetections : List Detection :=
  [⟨"sofa", 0, (0, 0, 0, 0)⟩, ⟨"sofa", 0, (0, 0, 0, 0)⟩, ⟨"lamp", 0, (0, 0, 0, 0)⟩]

/-- C3: `suggest_replacements` processes distinct categories in ascending
order of each category's cheapest candidate price (hence the committed
prices are non-decreasing along the suggestion sequence) and commits the
cheapest qualifying candidate per category; on the worked example
(detections sofa, sofa, lamp; sofa candidates 150 and 90; lamp candidate
30) budget 200 yields lamp at 30 then sofa at 90 with 80 remaining, and
budget 20 yields no suggestions with 20 remaining. -/
theorem replacement_greedy_cheapest_first :
    (∀ (catalog : Catalog) (detections : List Detection) (budget : ℕ),
      List.Pairwise (· ≤ ·)
        ((suggest_replacements catalog detections budget).1.map (·.price))) ∧
    suggest_replacements exampleCatalog exampleDetections 200 =
      ([⟨"lamp", "lamp_a", 30⟩, ⟨"sofa", "sofa_b", 90⟩], 80) ∧
    suggest_replacements exampleCatalog exampleDetections 20 = ([], 20) := by
  refine ⟨fun catalog detections budget => ?_, by decide, by decide⟩
  have h1 := orderByCheapest_sorted (catEntries catalog (dedupCategories detections))
  have h2 : List.Pairwise (· ≤ ·)
      ((orderByCheapest (catEntries catalog (dedupCategories detections))).map schedKey) :=
    (List.pairwise_map).2 h1
  exact List.Pairwise.sublist (allocate_price_sublist _ budget) h2

theorem catEntries_congr {f g : Catalog} :
    ∀ {cs : List String}, (∀ c ∈ cs, f c = g c) → catEntries f cs = catEntries g cs := by
  intro cs
  induction cs with
  | nil => intro h; rfl
  | cons c cs ih =>
    intro h
    have hc := h c (List.mem_cons_self _ _)
    have ht : catEntries f cs = catEntries g cs :=
      ih fun x hx => h x (List.mem_cons_of_mem _ hx)
    simp only [catEntries, hc, ht]

/-- C4: `suggest_replacements` is deterministic — two calls with identical
detections, identical budget and identical catalog responses on the
detected categories produce identical output (same suggestions in the
same order and the same remaining budget). -/
theorem replacement_deterministic (cat₁ cat₂ : Catalog)
    (detections : List Detection) (budget : ℕ)
    (h : ∀ d ∈ detections, cat₁ d.category = cat₂ d.category) :
    suggest_replacements cat₁ detections budget =
      suggest_replacements cat₂ detections budget := by
  have hcs : ∀ c ∈ dedupCategories detections, cat₁ c = cat₂ c := by
    intro c hc
    have hmem : c ∈ detections.map (·.category) := (mem_of_mem_dedupAux hc).1
    obtain ⟨d, hd, rfl⟩ := List.mem_map.1 hmem
    exact h d hd
  simp only [suggest_replacements, catEntries_congr hcs]

/-- A catalog that can only serve the sofa category. -/
def witnessCatalogA : Catalog := fun c =>
  if c = "sofa" then .ok [⟨"sofa", "sofa_a", 50, 0⟩] else .error ()

/-- A catalog with the same sofa response but different behaviour on
categories that are never detected. -/
def witnessCatalogB : Catalog := fun c =>
  if c = "sofa" then .ok [⟨"sofa", "sofa_a", 50, 0⟩] else .ok []

/-- Witness for C4: two catalogs with identical responses on the detected
category give identical output. -/
theorem replacement_deterministic_witness :
    suggest_replacements witnessCatalogA [⟨"sofa", 0, (0, 0, 0, 0)⟩] 100 =
      suggest_replacements witnessCatalogB [⟨"sofa", 0, (0, 0, 0, 0)⟩] 100 :=
  replacement_deterministic witnessCatalogA witnessCatalogB _ 100
    (by intro d hd; rcases List.mem_singleton.1 hd with rfl; rfl)

theorem map_category_filter (q : String → Bool) (dets : List Detection) :
    (dets.filter (fun d => q d.category)).map (·.category) =
      (dets.map (·.category)).filter q := by
  induction dets with
  | nil => rfl
  | cons d ds ih =>
    by_cases hq : q d.category
    · simp [List.filter_cons, hq, ih]
    · simp [List.filter_cons, hq, ih]

theorem dedupAux_filter (q : String → Bool) :
    ∀ (l seen seen' : List String),
      (∀ x, q x = true → (x ∈ seen ↔ x ∈ seen')) →
      dedupAux seen (l.filter q) = (dedupAux seen' l).filter q := by
  intro l
  induction l with
  | nil => intro seen seen' h; rfl
  | cons c cs ih =>
    intro seen seen' h
    by_cases hq : q c = true
    · rw [List.filter_cons_of_pos hq, dedupAux, dedupAux]
      by_cases hc : c ∈ seen'
      · rw [if_pos ((h c hq).2 hc), if_pos hc]
        exact ih seen seen' h
      · rw [if_neg (fun hc1 => hc ((h c hq).1 hc1)), if_neg hc,
          List.filter_cons_of_pos hq]
        refine congrArg (c :: ·) (ih (c :: seen) (c :: seen') fun x hx => ?_)
        simp only [List.mem_cons]
        exact or_congr Iff.rfl (h x hx)
    · rw [List.filter_cons_of_neg (by simpa using hq), dedupAux]
      by_cases hc : c ∈ seen'
      · rw [if_pos hc]
        exact ih seen seen' h
      · rw [if_neg hc, List.filter_cons_of_neg (by simpa using hq)]
        refine ih seen (c :: seen') fun x hx => ?_
        simp only [List.mem_cons]
        constructor
        · intro h1; exact Or.inr ((h x hx).1 h1)
        · intro h1
          rcases h1 with rfl | h1
          · exact absurd hx hq
          · exact (h x hx).2 h1

theorem catEntries_filter_ok (catalog : Catalog) :
    ∀ cs : List String,
      catEntries catalog (cs.filter (catalogOk catalog)) = catEntries catalog cs := by
  intro cs
  induction cs with
  | nil => rfl
  | cons c cs ih =>
    cases hcat : catalog c with
    | error e =>
      have hq : catalogOk catalog c = false := by simp [catalogOk, hcat]
      rw [List.filter_cons_of_neg (by simp [hq])]
      simp only [catEntries, hcat]
      exact ih
    | ok items =>
      have hq : catalogOk catalog c = true := by simp [catalogOk, hcat]
      rw [List.filter_cons_of_pos hq]
      simp only [catEntries, hcat, ih]

theorem catEntries_nil_of_err (catalog : Catalog) :
    ∀ cs : List String, (∀ c ∈ cs, catalogOk catalog c = false) →
      catEntries catalog cs = [] := by
  intro cs
  induction cs with
  | nil => intro h; rfl
  | cons c cs ih =>
    intro h
    have hc := h c (List.mem_cons_self _ _)
    simp only [catEntries]
    cases hcat : catalog c with
    | error e => exact ih fun x hx => h x (List.mem_cons_of_mem _ hx)
    | ok items => simp [catalogOk, hcat] at hc

/-- C6: a category on which the catalog collaborator fails is recovered
locally — removing the failing categories from the detections does not
change the result (the failure is skipped and allocation continues), and
when the catalog fails on every detected category the call still returns
a valid empty suggestion list with the untouched budget, not an error. -/
theorem replacement_skips_unavailable_categories :
    (∀ (catalog : Catalog) (detections : List Detection) (budget : ℕ),
      suggest_replacements catalog
          (detections.filter (fun d => catalogOk catalog d.category)) budget =
        suggest_replacements catalog detections budget) ∧
    (∀ (catalog : Catalog) (detections : List Detection) (budget : ℕ),
      (∀ d ∈ detections, catalogOk catalog d.category = false) →
      suggest_replacements catalog detections budget = ([], budget)) := by
  constructor
  · intro catalog dets budget
    have hAB :
        catEntries catalog
            (dedupCategories (dets.filter (fun d => catalogOk catalog d.category))) =
          catEntries catalog (dedupCategories dets) := by
      rw [dedupCategories, dedupCategories, map_category_filter,
        dedupAux_filter (catalogOk catalog) (dets.map (·.category)) [] []
          (fun x _ => Iff.rfl)]
      exact catEntries_filter_ok catalog _
    simp only [suggest_replacements, hAB]
  · intro catalog dets budget h
    have hnil : catEntries catalog (dedupCategories dets) = [] := by
      refine catEntries_nil_of_err catalog _ fun c hc => ?_
      have hmem : c ∈ dets.map (·.category) := (mem_of_mem_dedupAux hc).1
      obtain ⟨d, hd, rfl⟩ := List.mem_map.1 hmem
      exact h d hd
    simp [suggest_replacements, hnil, orderByCheapest, allocate]

/-- An all-failing catalog used in the C6 witness. -/
def witnessCatalogErr : Catalog := fun _ => .error ()

/-- Witness for C6: with a catalog failing on every category, the call
still returns the valid empty result with the untouched budget. -/
theorem replacement_skips_unavailable_witness :
    suggest_replacements witnessCatalogErr [⟨"sofa", 0, (0, 0, 0, 0)⟩] 75 = ([], 75) :=
  replacement_skips_unavailable_categories.2 witnessCatalogErr _ 75
    (by intro d hd; rfl)

/-! ## Claim theorems for the budget estimator and the vendor cache -/

/-- C5: `estimate_cost` returns the fixed configured cost for each style
in the enumerated set (Minimalist 150000, Modern 250000, Vintage 200000,
Professional 300000) and fails with `UnknownStyleError` for every style
outside that set, with no implicit default. -/
theorem estimate_cost_enumerated :
    estimate_cost "Minimalist" = .ok 150000 ∧
    estimate_cost "Modern" = .ok 250000 ∧
    estimate_cost "Vintage" = .ok 200000 ∧
    estimate_cost "Professional" = .ok 300000 ∧
    ∀ s : String, s ∉ ["Minimalist", "Modern", "Vintage", "Professional"] →
      estimate_cost s = .error (.unknownStyle s) := by
  refine ⟨rfl, rfl, rfl, rfl, ?_⟩
  intro s hs
  simp only [List.mem_cons, List.not_mem_nil, or_false, not_or] at hs
  obtain ⟨h1, h2, h3, h4⟩ := hs
  simp [estimate_cost, assocLookup, BUDGET_ESTIMATES,
    Ne.symm h1, Ne.symm h2, Ne.symm h3, Ne.symm h4]

/-- Witness for C5: the style label Rustic is outside the enumerated set
and fails with `UnknownStyleError`. -/
theorem estimate_cost_enumerated_witness :
    "Rustic" ∉ ["Minimalist", "Modern", "Vintage", "Professional"] ∧
    estimate_cost "Rustic" = .error (.unknownStyle "Rustic") :=
  ⟨by decide, estimate_cost_enumerated.2.2.2.2 "Rustic" (by decide)⟩

/-- C7: the TTL discipline of `get_vendor_links`: a populated non-stale
entry is returned immediately as a hit with zero latency and the cached
results, leaving the store unchanged; otherwise a successful external
lookup is stored with the configured ttl and returned as a miss with the
measured latency; and in the spec scenario a first chair call on an
empty cache misses, an immediate second call hits with zero latency and
identical results, and a call after the ttl has elapsed misses again. -/
theorem vendor_cache_ttl_discipline :
    (∀ (ttl : ℕ) (source : VendorSource) (m now : ℕ) (st : CacheState)
        (c : String) (e : CacheEntry),
      assocLookup st c = some e → entryFresh now e = true →
      get_vendor_links ttl source m now st c =
        ({ results := e.value, cache_status := .hit, latency_ms := 0 }, st)) ∧
    (∀ (ttl : ℕ) (source : VendorSource) (m now : ℕ) (st : CacheState)
        (c : String) (rs : List LinkRecord),
      (∀ e, assocLookup st c = some e → entryFresh now e = false) →
      source c = .ok rs →
      get_vendor_links ttl source m now st c =
        ({ results := rs, cache_status := .miss, latency_ms := m },
          storeEntry st c ⟨rs, now, ttl⟩)) ∧
    (∀ (ttl : ℕ) (source : VendorSource) (m₁ m₂ m₃ n₂ n₃ : ℕ)
        (rs : List LinkRecord),
      source "chair" = .ok rs → n₂ < ttl → ttl ≤ n₃ →
      get_vendor_links ttl source m₁ 0 [] "chair" =
        ({ results := rs, cache_status := .miss, latency_ms := m₁ },
          [("chair", ⟨rs, 0, ttl⟩)]) ∧
      get_vendor_links ttl source m₂ n₂ [("chair", ⟨rs, 0, ttl⟩)] "chair" =
        ({ results := rs, cache_status := .hit, latency_ms := 0 },
          [("chair", ⟨rs, 0, ttl⟩)]) ∧
      (get_vendor_links ttl source m₃ n₃ [("chair", ⟨rs, 0, ttl⟩)] "chair").1.cache_status
        = .miss) := by
  refine ⟨?_, ?_, ?_⟩
  · intro ttl source m now st c e hlk hfresh
    simp [get_vendor_links, hlk, hfresh]
  · intro ttl source m now st c rs hstale hsource
    cases hlk : assocLookup st c with
    | none => simp [get_vendor_links, hlk, hsource]
    | some e => simp [get_vendor_links, hlk, hstale e hlk, hsource]
  · intro ttl source m₁ m₂ m₃ n₂ n₃ rs hsource hn₂ hn₃
    have hlk2 : assocLookup ([("chair", (⟨rs, 0, ttl⟩ : CacheEntry))]) "chair" =
        some ⟨rs, 0, ttl⟩ := rfl
    refine ⟨?_, ?_, ?_⟩
    · simp [get_vendor_links, assocLookup, hsource, storeEntry]
    · simp [get_vendor_links, hlk2, entryFresh, hn₂]
    · have hfresh : entryFresh n₃ ⟨rs, 0, ttl⟩ = false := by
        simp [entryFresh]; omega
      simp [get_vendor_links, hlk2, hfresh, hsource]

/-- The vendor source used in the cache witnesses: always returns one
chair link. -/
def witnessSourceOk : VendorSource := fun _ => .ok [⟨"chair deal", "vendors.example/chair"⟩]

/-- Witness for C7: the miss/hit/expired-miss scenario at concrete times
with ttl 60. -/
theorem vendor_cache_ttl_discipline_witness :
    get_vendor_links 60 witnessSourceOk 7 0 [] "chair" =
      ({ results := [⟨"chair deal", "vendors.example/chair"⟩],
         cache_status := .miss, latency_ms := 7 },
        [("chair", ⟨[⟨"chair deal", "vendors.example/chair"⟩], 0, 60⟩)]) ∧
    get_vendor_links 60 witnessSourceOk 9 1
        [("chair", ⟨[⟨"chair deal", "vendors.example/chair"⟩], 0, 60⟩)] "chair" =
      ({ results := [⟨"chair deal", "vendors.example/chair"⟩],
         cache_status := .hit, latency_ms := 0 },
        [("chair", ⟨[⟨"chair deal", "vendors.example/chair"⟩], 0, 60⟩)]) ∧
    (get_vendor_links 60 witnessSourceOk 11 60
        [("chair", ⟨[⟨"chair deal", "vendors.example/chair"⟩], 0, 60⟩)] "chair").1.cache_status
      = .miss :=
  vendor_cache_ttl_discipline.2.2 60 witnessSourceOk 7 9 11 1 60
    [⟨"chair deal", "vendors.example/chair"⟩] rfl (by decide) (by decide)

/-- C8: when the external vendor lookup fails, `get_vendor_links` returns
the degraded-but-valid result with error status, empty results and the
measured latency, the failure is not cached (the store is unchanged), no
exception escapes (the function is total), and the very next call for the
same category retries the external source and can succeed as a miss. -/
theorem vendor_cache_error_isolation :
    (∀ (ttl : ℕ) (source : VendorSource) (m now : ℕ) (st : CacheState) (c : String),
      (∀ e, assocLookup st c = some e → entryFresh now e = false) →
      source c = .error () →
      get_vendor_links ttl source m now st c =
        ({ results := [], cache_status := .error, latency_ms := m }, st)) ∧
    (∀ (ttl : ℕ) (src₁ src₂ : VendorSource) (m₁ m₂ now now₂ : ℕ)
        (st : CacheState) (c : String) (rs : List LinkRecord),
      (∀ e, assocLookup st c = some e → entryFresh now e = false) →
      (∀ e, assocLookup st c = some e → entryFresh now₂ e = false) →
      src₁ c = .error () → src₂ c = .ok rs →
      (get_vendor_links ttl src₂ m₂ now₂
          (get_vendor_links ttl src₁ m₁ now st c).2 c).1 =
        { results := rs, cache_status := .miss, latency_ms := m₂ }) := by
  have herr : ∀ (ttl : ℕ) (source : VendorSource) (m now : ℕ) (st : CacheState)
      (c : String),
      (∀ e, assocLookup st c = some e → entryFresh now e = false) →
      source c = .error () →
      get_vendor_links ttl source m now st c =
        ({ results := [], cache_status := .error, latency_ms := m }, st) := by
    intro ttl source m now st c hstale hsource
    cases hlk : assocLookup st c with
    | none => simp [get_vendor_links, hlk, hsource]
    | some e => simp [get_vendor_links, hlk, hstale e hlk, hsource]
  refine ⟨herr, ?_⟩
  intro ttl src₁ src₂ m₁ m₂ now now₂ st c rs hstale hstale₂ h₁ h₂
  rw [herr ttl src₁ m₁ now st c hstale h₁]
  cases hlk : assocLookup st c with
  | none => simp [get_vendor_links, hlk, h₂]
  | some e => simp [get_vendor_links, hlk, hstale₂ e hlk, h₂]

/-- The failing vendor source used in the C8 witness. -/
def witnessSourceErr : VendorSource := fun _ => .error ()

/-- Witness for C8: a failing rug lookup yields the degraded error result
on the empty cache, caches nothing, and the immediate retry against a
recovered source is a miss with its results. -/
theorem vendor_cache_error_isolation_witness :
    get_vendor_links 60 witnessSourceErr 5 0 [] "rug" =
      ({ results := [], cache_status := .error, latency_ms := 5 }, []) ∧
    (get_vendor_links 60 witnessSourceOk 8 1
        (get_vendor_links 60 witnessSourceErr 5 0 [] "rug").2 "rug").1 =
      { results := [⟨"chair deal", "vendors.example/chair"⟩],
        cache_status := .miss, latency_ms := 8 } :=
  ⟨vendor_cache_error_isolation.1 60 witnessSourceErr 5 0 [] "rug"
      (by intro e he; cases he) rfl,
    vendor_cache_error_isolation.2 60 witnessSourceErr witnessSourceOk 5 8 0 1 [] "rug"
      [⟨"chair deal", "vendors.example/chair"⟩]
      (by intro e he; cases he) (by intro e he; cases he) rfl rfl⟩

/-! ## Claim theorem for the `detect_furniture` vendor-link loop -/

theorem dedupAux_seen_congr {s₁ s₂ : List String}
    (h : ∀ x, x ∈ s₁ ↔ x ∈ s₂) : ∀ l : List String, dedupAux s₁ l = dedupAux s₂ l := by
  intro l
  induction l generalizing s₁ s₂ with
  | nil => rfl
  | cons c cs ih =>
    rw [dedupAux, dedupAux]
    by_cases hc : c ∈ s₂
    · rw [if_pos ((h c).2 hc), if_pos hc]
      exact ih h
    · rw [if_neg (fun h1 => hc ((h c).1 h1)), if_neg hc]
      refine congrArg (c :: ·) (ih fun x => ?_)
      simp only [List.mem_cons]
      exact or_congr Iff.rfl (h x)

theorem onlineLoop_spec (getv : VendorCall) :
    ∀ (dets : List Detection) (acc : List (String × Entry)),
      onlineLoop getv dets acc =
        (acc ++ (dedupAux (acc.map Prod.fst) (dets.map (·.category))).map
            (fun c => (c, onlineValue getv c)),
          dedupAux (acc.map Prod.fst) (dets.map (·.category))) := by
  intro dets
  induction dets with
  | nil => intro acc; simp [onlineLoop, dedupAux]
  | cons d ds ih =>
    intro acc
    rw [onlineLoop]
    by_cases hc : d.category ∈ acc.map Prod.fst
    · rw [if_pos hc, ih acc]
      simp only [List.map_cons, dedupAux, if_pos hc]
    · rw [if_neg hc]
      rw [ih (acc ++ [(d.category, onlineValue getv d.category)])]
      have hseen : dedupAux ((acc ++ [(d.category, onlineValue getv d.category)]).map Prod.fst)
            (ds.map (·.category)) =
          dedupAux (d.category :: acc.map Prod.fst) (ds.map (·.category)) := by
        refine dedupAux_seen_congr (fun x => ?_) _
        simp only [List.map_append, List.map_cons, List.map_nil, List.mem_append,
          List.mem_cons, List.mem_singleton, List.not_mem_nil, or_false]
        tauto
      rw [hseen]
      simp only [List.map_cons, dedupAux, if_neg hc, List.map_cons, List.append_assoc,
        List.singleton_append]

/-- C10: for every detection list, the `online_suggestions` mapping built
by the `detect_furniture` endpoint has exactly one entry per distinct
detection category in first-seen order, the vendor call is invoked
exactly once per distinct category (bounded by distinct categories, not
raw detections), each entry equals the call's result when it returns
normally and equals the literal fallback record when it raises — whose
key is `cache`, not `cache_status` — and the endpoint loop always
returns (it never re-raises the vendor failure). -/
theorem detect_online_suggestions_spec (getv : VendorCall)
    (detections : List Detection) :
    online_suggestions getv detections =
      ((dedupCategories detections).map (fun c => (c, onlineValue getv c)),
        dedupCategories detections) ∧
    (dedupCategories detections).Nodup ∧
    errorEntry = [("results", .linksF []), ("cache", .strF "error"), ("latency_ms", .natF 0)] ∧
    "cache" ∈ errorEntry.map Prod.fst ∧
    "cache_status" ∉ errorEntry.map Prod.fst := by
  refine ⟨?_, nodup_dedupCategories detections, rfl, by decide, by decide⟩
  rw [online_suggestions, onlineLoop_spec]
  simp [dedupCategories]
